import Mathlib

/-!
Shallow embedding of the boards category lifecycle and ordering logic
(`server/boards/app/category.go`) of the Mattermost repository.

The `App` methods are modelled as pure functions over an abstract `Store`
record of response functions.  Store writes and websocket broadcasts are
recorded in an explicit `Effect` trace; Go errors become the `GoErr`
inductive, with `GoErr.wrap` standing for `fmt.Errorf` wrapping with a
context string.  The unbounded pagination loop of `ForEachUserCategory`
is given explicit fuel; a `none` result marks exhausted fuel (a run the
Go loop has not yet finished), and every claim is stated about runs the
loop completes.

Definitions not found in the excerpt (the `model.Category` helpers
`Hydrate` and `IsValid`, the board-aware enumeration
`ForEachUserCategoryBoard`, `AddUpdateUserCategoryBoard` and the
`defaultCategoryBoards` sentinel) are modelled from the specification and
say so in their doc comments.
-/

namespace Boards

/-- Category type constant `model.CategoryTypeCustom` (Go represents the
type as a string). -/
def categoryTypeCustom : String := "custom"

/-- Category type constant `model.CategoryTypeSystem`. -/
def categoryTypeSystem : String := "system"

/-- `model.Category`: the persisted category row, with the fields named in
the data model of the spec.  `Type` is a Lean keyword, hence `type_`. -/
structure Category where
  id : String
  userID : String
  teamID : String
  name : String
  type_ : String
  sortOrder : Nat
  createAt : Nat
  updateAt : Nat
  deleteAt : Nat
  deriving DecidableEq, Repr

/-- `model.BoardMetadata`: one board-membership record of a category,
referencing a board identifier. -/
structure BoardMetadata where
  boardID : String
  deriving DecidableEq, Repr

/-- `model.CategoryBoards`: a category together with its ordered
board-membership records. -/
structure CategoryBoards where
  category : Category
  boardMetadata : List BoardMetadata
  deriving DecidableEq, Repr

/-- Go `error` values reachable in this code.  Sentinel errors are bare
constructors; `wrap ctx e` stands for `fmt.Errorf` combining context text
with a wrapped error (so `errors.Is` against the sentinel still holds). -/
inductive GoErr where
  /-- `errCategoryNotFound`. -/
  | categoryNotFound
  /-- `errCategoriesLengthMismatch`. -/
  | categoriesLengthMismatch
  /-- `ErrCannotDeleteSystemCategory`. -/
  | cannotDeleteSystemCategory
  /-- `ErrCannotUpdateSystemCategory`. -/
  | cannotUpdateSystemCategory
  /-- `model.ErrCategoryDeleted`. -/
  | categoryDeleted
  /-- `model.ErrCategoryPermissionDenied`. -/
  | categoryPermissionDenied
  /-- `model.NewErrInvalidCategory(msg)`. -/
  | invalidCategory (msg : String)
  /-- `errNoDefaultCategoryFound` (declared outside the excerpt; modelled
  from the spec as the dedicated no-default-category sentinel). -/
  | noDefaultCategoryFound
  /-- An opaque failure produced by the persistence layer. -/
  | storeFailure (code : Nat)
  /-- `fmt.Errorf` wrapping: context text plus the wrapped error. -/
  | wrap (ctx : String) (inner : GoErr)
  deriving DecidableEq, Repr

/-- Context text of the length-mismatch wrap built by
`verifyNewCategoriesMatchExisting`, carrying both lengths and the scope. -/
def lengthMismatchContext (newLen existingLen : Nat) (userID teamID : String) : String :=
  s!"length new categories: {newLen}, length existing categories: {existingLen}, userID: {userID}, teamID: {teamID}"

/-- Context text of the not-found wrap built by
`verifyNewCategoriesMatchExisting`, carrying the offending ID and the scope. -/
def idNotFoundContext (categoryID userID teamID : String) : String :=
  s!"specified category ID: {categoryID}, userID: {userID}, teamID: {teamID}"

/-- Observable side effects of an `App` call: store writes and websocket
broadcasts, in the order they are issued. -/
inductive Effect where
  | storeUpdateCategory (c : Category)
  | storeDeleteCategory (categoryID userID teamID : String)
  | storeReorderCategories (userID teamID : String) (order : List String)
  | addUpdateUserCategoryBoard (teamID userID categoryID : String) (boardIDs : List String)
  | broadcastCategoryChange (c : Category)
  | broadcastCategoryReorder (teamID userID : String) (order : List String)
  deriving DecidableEq, Repr

/-- The persistence store consumed by the `App`, as a record of response
functions (reads return their result, writes return an optional error;
the write effects themselves are recorded in the `Effect` trace). -/
structure Store where
  getCategory : String → Except GoErr Category
  getUserCategories : String → String → Nat → Nat → Except GoErr (List Category)
  getUserCategoryBoards : String → String → Nat → Nat → Except GoErr (List CategoryBoards)
  updateCategory : Category → Option GoErr
  deleteCategory : String → String → String → Option GoErr
  reorderCategories : String → String → List String → Except GoErr (List String)
  addUpdateUserCategoryBoard : String → String → String → List String → Option GoErr

/-- Modelled from the spec: `model.Category.Hydrate` is outside the
excerpt; the spec describes it as normalising required fields — ID
generation, timestamp stamping, default Type.  The generated ID and the
clock reading are passed in as parameters. -/
def Category.hydrate (c : Category) (genID : String) (now : Nat) : Category :=
  { c with
    id := if c.id = "" then genID else c.id
    createAt := if c.createAt = 0 then now else c.createAt
    updateAt := if c.updateAt = 0 then now else c.updateAt
    type_ := if c.type_ = "" then categoryTypeCustom else c.type_ }

/-- Modelled from the spec: `model.Category.IsValid` is outside the
excerpt; the spec describes structural validation — required fields
non-empty, Name non-blank, Type a recognized enum value.  Returns the
violated rule as an invalid-category error, or `none` when valid. -/
def Category.isValid (c : Category) : Option GoErr :=
  if c.id = "" then some (.invalidCategory "category ID cannot be empty")
  else if c.userID = "" then some (.invalidCategory "category user ID cannot be empty")
  else if c.teamID = "" then some (.invalidCategory "category team ID cannot be empty")
  else if c.name.toList.all (fun ch => ch.isWhitespace) then
    some (.invalidCategory "category name cannot be empty")
  else if c.type_ ≠ categoryTypeCustom ∧ c.type_ ≠ categoryTypeSystem then
    some (.invalidCategory "invalid category type")
  else none

/-- `App.UpdateCategory`: hydrate and validate the candidate, read the
existing row, check not-deleted / same user / same team, force `Type`
back to the stored value (and for a system category force `Name` back and
`DeleteAt` to zero), restamp `UpdateAt`, re-validate, write, re-read, and
broadcast.  Returns the Go result plus the effect trace. -/
def updateCategory (store : Store) (category : Category) (genID : String) (now : Nat) :
    Except GoErr Category × List Effect :=
  let c := category.hydrate genID now
  match c.isValid with
  | some e => (.error e, [])
  | none =>
    match store.getCategory c.id with
    | .error e => (.error e, [])
    | .ok existingCategory =>
      if existingCategory.deleteAt ≠ 0 then (.error .categoryDeleted, [])
      else if existingCategory.userID ≠ c.userID then (.error .categoryPermissionDenied, [])
      else if existingCategory.teamID ≠ c.teamID then (.error .categoryPermissionDenied, [])
      else
        let c1 : Category := { c with type_ := existingCategory.type_ }
        let c2 : Category :=
          if existingCategory.type_ = categoryTypeSystem then
            { c1 with name := existingCategory.name, deleteAt := 0 }
          else c1
        let c3 : Category := { c2 with updateAt := now }
        match c3.isValid with
        | some e => (.error e, [])
        | none =>
          match store.updateCategory c3 with
          | some e => (.error e, [.storeUpdateCategory c3])
          | none =>
            match store.getCategory c3.id with
            | .error e => (.error e, [.storeUpdateCategory c3])
            | .ok updatedCategory =>
              (.ok updatedCategory,
               [.storeUpdateCategory c3, .broadcastCategoryChange updatedCategory])

/-- The fixed page size (`const perPage = 50` in `ForEachUserCategory`). -/
def perPage : Nat := 50

/-- The inner loop of the paged enumeration: visit the items of one page
in order.  Go closure state is threaded explicitly; the visitor returns
(new state, done, error).  `Sum.inl (s, e)` is the early `return err` of
the Go loop (taken when the error is set or done is signalled, and `e`
may be `none` on a pure done signal); `Sum.inr s` means the page was
consumed with no early return. -/
def visitItems (fn : σ → α → σ × Bool × Option GoErr) :
    σ → List α → Sum (σ × Option GoErr) σ
  | s, [] => Sum.inr s
  | s, item :: rest =>
    match fn s item with
    | (s1, done, e) =>
      if e.isSome || done then Sum.inl (s1, e) else visitItems fn s1 rest

/-- The paged enumeration loop shared by `ForEachUserCategory` and its
board-aware variant: request page `page` with `per` items, return the
store error if any, run the visitor over the page, stop after a short
page, otherwise continue with the next page number.  The recursion is
bounded by `fuel`; a `none` result means the fuel ran out before the Go
loop finished.  The first component records every page request made, as
(page number, per-page size, visitor state on entry). -/
def forEachPagedAux (getPage : Nat → Nat → Except GoErr (List α)) (per : Nat)
    (fn : σ → α → σ × Bool × Option GoErr) :
    σ → Nat → Nat → List (Nat × Nat × σ) × Option (σ × Option GoErr)
  | _, _, 0 => ([], none)
  | s, page, fuel + 1 =>
    match getPage page per with
    | .error e => ([(page, per, s)], some (s, some e))
    | .ok items =>
      match visitItems fn s items with
      | .inl r => ([(page, per, s)], some r)
      | .inr s1 =>
        if items.length < per then ([(page, per, s)], some (s1, none))
        else
          let rest := forEachPagedAux getPage per fn s1 (page + 1) fuel
          ((page, per, s) :: rest.1, rest.2)

/-- `App.ForEachUserCategory` together with its page-request trace. -/
def ForEachUserCategoryRun (store : Store) (userID teamID : String)
    (fn : σ → Category → σ × Bool × Option GoErr) (s : σ) (fuel : Nat) :
    List (Nat × Nat × σ) × Option (σ × Option GoErr) :=
  forEachPagedAux (store.getUserCategories userID teamID) perPage fn s 0 fuel

/-- `App.ForEachUserCategory`: enumerate the categories of a
(user, team) scope in pages of `perPage`, returning the final closure
state and the error the Go function returns (`none` for nil). -/
def ForEachUserCategory (store : Store) (userID teamID : String)
    (fn : σ → Category → σ × Bool × Option GoErr) (s : σ) (fuel : Nat) :
    Option (σ × Option GoErr) :=
  (ForEachUserCategoryRun store userID teamID fn s fuel).2

/-- Modelled from the spec: `App.ForEachUserCategoryBoard` is outside the
excerpt; the spec gives it the same enumeration contract as
`ForEachUserCategory` (fixed pages of 50, early done signal, abort on
store error), over `CategoryBoards` items. -/
def ForEachUserCategoryBoard (store : Store) (userID teamID : String)
    (fn : σ → CategoryBoards → σ × Bool × Option GoErr) (s : σ) (fuel : Nat) :
    Option (σ × Option GoErr) :=
  (forEachPagedAux (store.getUserCategoryBoards userID teamID) perPage fn s 0 fuel).2

/-- Insertion into the Go map `map[string]struct\x7b\x7d` used as an ID
set: a key already present leaves the map unchanged, so the list stays
duplicate-free and its length is the number of distinct keys. -/
def mapInsert (m : List String) (k : String) : List String :=
  if m.contains k then m else m ++ [k]

/-- The enumeration run by `verifyNewCategoriesMatchExisting`: collect
the distinct IDs of the existing categories of the scope. -/
def collectUserCategoryIDs (store : Store) (fuel : Nat) (userID teamID : String) :
    Option (List String × Option GoErr) :=
  ForEachUserCategory store userID teamID
    (fun m category => (mapInsert m category.id, false, none)) [] fuel

/-- `App.verifyNewCategoriesMatchExisting`: build the set of existing
category IDs (wrapping a fetch error), fail with the length-mismatch wrap
when the proposed order has a different size than the set, fail with the
not-found wrap at the first proposed ID absent from the set, and accept
otherwise.  `some none` is acceptance, `some (some e)` rejection, `none`
exhausted fuel. -/
def verifyNewCategoriesMatchExisting (store : Store) (fuel : Nat)
    (userID teamID : String) (newCategoryOrder : List String) : Option (Option GoErr) :=
  match collectUserCategoryIDs store fuel userID teamID with
  | none => none
  | some (_, some e) => some (some (.wrap "error fetching user categories" e))
  | some (existingCategoriesMap, none) =>
    if newCategoryOrder.length ≠ existingCategoriesMap.length then
      some (some (.wrap
        (lengthMismatchContext newCategoryOrder.length existingCategoriesMap.length userID teamID)
        .categoriesLengthMismatch))
    else
      match newCategoryOrder.find? (fun newCategoryID => !existingCategoriesMap.contains newCategoryID) with
      | some badID => some (some (.wrap (idNotFoundContext badID userID teamID) .categoryNotFound))
      | none => some none

/-- `App.ReorderCategories`: validate the proposed order against the
existing set, persist through the store (whose returned order is what is
broadcast and returned), with the effect trace recording the store call
and the broadcast. -/
def reorderCategories (store : Store) (fuel : Nat) (userID teamID : String)
    (newCategoryOrder : List String) : Option (Except GoErr (List String) × List Effect) :=
  match verifyNewCategoriesMatchExisting store fuel userID teamID newCategoryOrder with
  | none => none
  | some (some e) => some (.error e, [])
  | some none =>
    match store.reorderCategories userID teamID newCategoryOrder with
    | .error e => some (.error e, [.storeReorderCategories userID teamID newCategoryOrder])
    | .ok newOrder =>
      some (.ok newOrder,
        [.storeReorderCategories userID teamID newCategoryOrder,
         .broadcastCategoryReorder teamID userID newOrder])

/-- Modelled from the spec: the `defaultCategoryBoards` sentinel name is
declared outside the excerpt; the spec designates the default category as
the one whose Name is "Boards". -/
def defaultCategoryBoards : String := "Boards"

/-- The visitor closure of `moveBoardsToDefaultCategory`: remember the
source category when seen, remember the ID of the category carrying the
default name, and signal done as soon as both are known.  The threaded
state is (source category boards found so far, default category ID,
initially empty). -/
def moveScanStep (sourceCategoryID : String) :
    Option CategoryBoards × String → CategoryBoards →
    (Option CategoryBoards × String) × Bool × Option GoErr :=
  fun st categoryBoards =>
    let src :=
      if categoryBoards.category.id = sourceCategoryID then some categoryBoards else st.1
    let defaultCategoryID :=
      if categoryBoards.category.name = defaultCategoryBoards then
        categoryBoards.category.id
      else st.2
    ((src, defaultCategoryID), src.isSome && defaultCategoryID != "", none)

/-- `App.moveBoardsToDefaultCategory`: scan the user categories of the
team for the source category and the default category, short-circuiting
once both are found; fail with the category-not-found sentinel when the
source is absent, with the wrapped no-default-category sentinel when no
category carries the default name; otherwise reassign the board IDs of
the source category to the default category in one bulk call, wrapping
its error.  Returns (error or `none` for success, effect trace); the
outer `none` is exhausted fuel. -/
def moveBoardsToDefaultCategory (store : Store) (fuel : Nat)
    (userID teamID sourceCategoryID : String) : Option (Option GoErr × List Effect) :=
  match ForEachUserCategoryBoard store userID teamID
      (moveScanStep sourceCategoryID) (none, "") fuel with
  | none => none
  | some (_, some e) => some (some e, [])
  | some ((sourceCategoryBoards, defaultCategoryID), none) =>
    match sourceCategoryBoards with
    | none => some (some .categoryNotFound, [])
    | some scb =>
      if defaultCategoryID = "" then
        some (some (.wrap "moveBoardsToDefaultCategory" .noDefaultCategoryFound), [])
      else
        let boardIDs := scb.boardMetadata.map (fun bm => bm.boardID)
        match store.addUpdateUserCategoryBoard teamID userID defaultCategoryID boardIDs with
        | some e =>
          some (some (.wrap "moveBoardsToDefaultCategory" e),
            [.addUpdateUserCategoryBoard teamID userID defaultCategoryID boardIDs])
        | none =>
          some (none, [.addUpdateUserCategoryBoard teamID userID defaultCategoryID boardIDs])

/-- `App.DeleteCategory`: read the existing row; return it unchanged when
already soft-deleted; fail with permission-denied on a user mismatch,
with an invalid-category error on a team mismatch, and with the
cannot-delete-system-category sentinel for a system category; otherwise
migrate the boards to the default category, soft-delete through the
store, re-read and broadcast.  Returns the Go result plus the effect
trace; the outer `none` is exhausted fuel inside the migration scan. -/
def deleteCategory (store : Store) (fuel : Nat) (categoryID userID teamID : String) :
    Option (Except GoErr Category × List Effect) :=
  match store.getCategory categoryID with
  | .error e => some (.error e, [])
  | .ok existingCategory =>
    if existingCategory.deleteAt ≠ 0 then some (.ok existingCategory, [])
    else if existingCategory.userID ≠ userID then
      some (.error .categoryPermissionDenied, [])
    else if existingCategory.teamID ≠ teamID then
      some (.error (.invalidCategory "category doesn\x27t belong to the team"), [])
    else if existingCategory.type_ = categoryTypeSystem then
      some (.error .cannotDeleteSystemCategory, [])
    else
      match moveBoardsToDefaultCategory store fuel userID teamID categoryID with
      | none => none
      | some (some e, effects) => some (.error e, effects)
      | some (none, effects) =>
        let effects1 := effects ++ [.storeDeleteCategory categoryID userID teamID]
        match store.deleteCategory categoryID userID teamID with
        | some e => some (.error e, effects1)
        | none =>
          match store.getCategory categoryID with
          | .error e => some (.error e, effects1)
          | .ok deletedCategory =>
            some (.ok deletedCategory, effects1 ++ [.broadcastCategoryChange deletedCategory])

/-! ### Concrete artifacts used by the witnesses -/

/-- A stored system category, active, owned by user `u` in team `t`. -/
def wSystemCat : Category :=
  { id := "c1", userID := "u", teamID := "t", name := "Boards", type_ := "system",
    sortOrder := 0, createAt := 5, updateAt := 5, deleteAt := 0 }

/-- A stored custom category for the same scope. -/
def wCustomCat : Category :=
  { id := "c2", userID := "u", teamID := "t", name := "Work", type_ := "custom",
    sortOrder := 1, createAt := 5, updateAt := 5, deleteAt := 0 }

/-- A base concrete store: `getCategory` finds `wSystemCat` under "c1" and
`wCustomCat` under "c2", one page of user categories holds both, the
board-aware page gives `wCustomCat` the boards b1 and b2, and all writes
succeed with the reorder store committing the reversed order. -/
def wStore : Store :=
  { getCategory := fun id =>
      if id = "c1" then .ok wSystemCat
      else if id = "c2" then .ok wCustomCat
      else .error (.storeFailure 1)
    getUserCategories := fun _ _ page _ =>
      if page = 0 then .ok [wSystemCat, wCustomCat] else .ok []
    getUserCategoryBoards := fun _ _ page _ =>
      if page = 0 then .ok [⟨wSystemCat, []⟩, ⟨wCustomCat, [⟨"b1"⟩, ⟨"b2"⟩]⟩]
      else .ok []
    updateCategory := fun _ => none
    deleteCategory := fun _ _ _ => none
    reorderCategories := fun _ _ order => .ok order.reverse
    addUpdateUserCategoryBoard := fun _ _ _ _ => none }

/-- The caller input of the C1 witness: tries to rename the system
category, soft-delete it and change its type. -/
def wUpdateInput : Category :=
  { wSystemCat with name := "Hacked", deleteAt := 9, type_ := "custom" }

/-- The category the C1 witness run hands to `store.UpdateCategory`. -/
def wUpdateWritten : Category := { wSystemCat with updateAt := 10 }

/-! ### C1 -/

/-- C1: for every `UpdateCategory` call that passes all preconditions
(the category exists, is not soft-deleted, and the stored `UserID` and
`TeamID` match the candidate), any category written to the store carries
the existing stored `Type`; and when the existing `Type` is system, it
also carries the existing stored `Name` and `DeleteAt = 0`, regardless of
the values in the caller input. -/
theorem updateCategory_preserves_type_and_system_fields
    (store : Store) (category : Category) (genID : String) (now : Nat)
    (existing : Category)
    (hget : store.getCategory (category.hydrate genID now).id = .ok existing)
    (hdel : existing.deleteAt = 0)
    (huser : existing.userID = (category.hydrate genID now).userID)
    (hteam : existing.teamID = (category.hydrate genID now).teamID)
    (w : Category)
    (hw : Effect.storeUpdateCategory w ∈ (updateCategory store category genID now).2) :
    w.type_ = existing.type_ ∧
      (existing.type_ = categoryTypeSystem → w.name = existing.name ∧ w.deleteAt = 0) := by
  simp only [updateCategory] at hw
  split at hw
  · simp at hw
  · rw [hget] at hw
    simp only [hdel, huser, hteam] at hw
    simp only [ne_eq, not_true_eq_false, if_false, ite_not] at hw
    by_cases hsys : existing.type_ = categoryTypeSystem <;>
      [simp only [hsys, reduceIte] at hw; simp only [if_neg hsys] at hw] <;>
      (split at hw
       · simp at hw
       · split at hw <;> [skip; split at hw] <;> simp at hw <;> subst hw <;> simp [hsys])

/-- Witness for C1: updating the stored system category with a renamed,
soft-deleted, custom-typed candidate still writes the stored type, the
stored name, and an active `DeleteAt`. -/
theorem updateCategory_preserves_type_and_system_fields_witness :
    wUpdateWritten.type_ = wSystemCat.type_ ∧
      (wSystemCat.type_ = categoryTypeSystem →
        wUpdateWritten.name = wSystemCat.name ∧ wUpdateWritten.deleteAt = 0) :=
  updateCategory_preserves_type_and_system_fields wStore wUpdateInput "g" 10 wSystemCat
    rfl rfl rfl rfl wUpdateWritten (by decide)

/-! ### C4, C5, C7, C10: the DeleteCategory guard chain -/

/-- C4: deleting an active system category of the caller (matching user
and team) fails with the cannot-delete-system-category sentinel and
produces no effect at all: no board migration call, no store delete, no
broadcast. -/
theorem deleteCategory_system_category_refused
    (store : Store) (fuel : Nat) (categoryID userID teamID : String) (existing : Category)
    (hget : store.getCategory categoryID = .ok existing)
    (hdel : existing.deleteAt = 0)
    (huser : existing.userID = userID)
    (hteam : existing.teamID = teamID)
    (hsys : existing.type_ = categoryTypeSystem) :
    deleteCategory store fuel categoryID userID teamID =
      some (.error .cannotDeleteSystemCategory, []) := by
  simp [deleteCategory, hget, hdel, huser, hteam, hsys]

/-- Witness for C4: deleting the stored system category "c1" as its
owner is refused with no effects. -/
theorem deleteCategory_system_category_refused_witness :
    deleteCategory wStore 3 "c1" "u" "t" =
      some (.error .cannotDeleteSystemCategory, []) :=
  deleteCategory_system_category_refused wStore 3 "c1" "u" "t" wSystemCat
    rfl rfl rfl rfl rfl

/-- C5: deleting an already soft-deleted category returns the stored
record unchanged, with no store write and no broadcast (so a second
delete reports the same `DeleteAt` as the first and re-fires nothing). -/
theorem deleteCategory_already_deleted_idempotent
    (store : Store) (fuel : Nat) (categoryID userID teamID : String) (existing : Category)
    (hget : store.getCategory categoryID = .ok existing)
    (hdel : existing.deleteAt ≠ 0) :
    deleteCategory store fuel categoryID userID teamID = some (.ok existing, []) := by
  simp [deleteCategory, hget, hdel]

/-- Witness for C5: with "c2" stored as deleted at time 7, the delete
call returns that record, still carrying `DeleteAt = 7`, and no effects. -/
theorem deleteCategory_already_deleted_idempotent_witness :
    deleteCategory
      { wStore with getCategory := fun _ => .ok { wCustomCat with deleteAt := 7 } }
      3 "c2" "u" "t" = some (.ok { wCustomCat with deleteAt := 7 }, []) :=
  deleteCategory_already_deleted_idempotent _ 3 "c2" "u" "t"
    { wCustomCat with deleteAt := 7 } rfl (by decide)

/-- C7: on an active category, a stored-user mismatch fails with
permission-denied; with the user matching, a stored-team mismatch fails
with an invalid-category error (a different error); in both cases the
effect trace is empty, so nothing is written. -/
theorem deleteCategory_user_then_team_mismatch
    (store : Store) (fuel : Nat) (categoryID userID teamID : String) (existing : Category)
    (hget : store.getCategory categoryID = .ok existing)
    (hdel : existing.deleteAt = 0) :
    (existing.userID ≠ userID →
      deleteCategory store fuel categoryID userID teamID =
        some (.error .categoryPermissionDenied, [])) ∧
    (existing.userID = userID → existing.teamID ≠ teamID →
      deleteCategory store fuel categoryID userID teamID =
        some (.error (.invalidCategory "category doesn\x27t belong to the team"), [])) ∧
    GoErr.categoryPermissionDenied ≠
      GoErr.invalidCategory "category doesn\x27t belong to the team" := by
  refine ⟨fun huser => ?_, fun huser hteam => ?_, by decide⟩
  · simp [deleteCategory, hget, hdel, huser]
  · simp [deleteCategory, hget, hdel, huser, hteam]

/-- Witness for C7: a foreign caller "uX" gets permission-denied on
"c2"; its owner calling for the wrong team "tX" gets the
invalid-category error; no effects in either case. -/
theorem deleteCategory_user_then_team_mismatch_witness :
    (deleteCategory wStore 3 "c2" "uX" "t" =
        some (.error .categoryPermissionDenied, [])) ∧
    (deleteCategory wStore 3 "c2" "u" "tX" =
        some (.error (.invalidCategory "category doesn\x27t belong to the team"), [])) :=
  ⟨(deleteCategory_user_then_team_mismatch wStore 3 "c2" "uX" "t" wCustomCat
      rfl rfl).1 (by decide),
   (deleteCategory_user_then_team_mismatch wStore 3 "c2" "u" "tX" wCustomCat
      rfl rfl).2.1 rfl (by decide)⟩

/-- C10: the already-soft-deleted check runs before any ownership or team
check: a category stored with a nonzero `DeleteAt` is returned
successfully even to a caller whose user or team does not match the
stored row, instead of a permission error. -/
theorem deleteCategory_deleted_check_precedes_ownership
    (store : Store) (fuel : Nat) (categoryID userID teamID : String) (existing : Category)
    (hget : store.getCategory categoryID = .ok existing)
    (hdel : existing.deleteAt ≠ 0)
    (_hmismatch : existing.userID ≠ userID ∨ existing.teamID ≠ teamID) :
    deleteCategory store fuel categoryID userID teamID = some (.ok existing, []) := by
  simp [deleteCategory, hget, hdel]

/-- Witness for C10: the foreign caller "uX" in team "tX" deleting the
already-deleted "c2" receives the record, not permission-denied. -/
theorem deleteCategory_deleted_check_precedes_ownership_witness :
    deleteCategory
      { wStore with getCategory := fun _ => .ok { wCustomCat with deleteAt := 7 } }
      3 "c2" "uX" "tX" = some (.ok { wCustomCat with deleteAt := 7 }, []) :=
  deleteCategory_deleted_check_precedes_ownership _ 3 "c2" "uX" "tX"
    { wCustomCat with deleteAt := 7 } rfl (by decide) (Or.inl (by decide))

/-! ### Shared facts about the enumeration state -/

/-- A state predicate preserved by the visitor is preserved by the inner
page loop, whichever way it exits. -/
lemma visitItems_preserves (fn : σ → α → σ × Bool × Option GoErr) (P : σ → Prop)
    (hfn : ∀ s a, P s → P (fn s a).1) :
    ∀ (l : List α) (s : σ), P s →
      (∀ s1 r, visitItems fn s l = .inl (s1, r) → P s1) ∧
      (∀ s1, visitItems fn s l = .inr s1 → P s1) := by
  intro l
  induction l with
  | nil =>
    intro s hs
    refine ⟨fun s1 r h => by simp [visitItems] at h, fun s1 h => ?_⟩
    simp only [visitItems, Sum.inr.injEq] at h
    exact h ▸ hs
  | cons a rest ih =>
    intro s hs
    have hstep : P (fn s a).1 := hfn s a hs
    constructor
    · intro s1 r h
      simp only [visitItems] at h
      split at h
      · simp only [Sum.inl.injEq, Prod.mk.injEq] at h
        exact h.1 ▸ hstep
      · exact ((ih _ hstep).1 s1 r h)
    · intro s1 h
      simp only [visitItems] at h
      split at h
      · cases h
      · exact (ih _ hstep).2 s1 h

/-- A state predicate preserved by the visitor is preserved by the whole
paged enumeration. -/
lemma forEachPagedAux_preserves (getPage : Nat → Nat → Except GoErr (List α)) (per : Nat)
    (fn : σ → α → σ × Bool × Option GoErr) (P : σ → Prop)
    (hfn : ∀ s a, P s → P (fn s a).1) :
    ∀ (fuel : Nat) (s : σ) (page : Nat) (s1 : σ) (r : Option GoErr), P s →
      (forEachPagedAux getPage per fn s page fuel).2 = some (s1, r) → P s1 := by
  intro fuel
  induction fuel with
  | zero => intro s page s1 r _ h; simp [forEachPagedAux] at h
  | succ fuel ih =>
    intro s page s1 r hs h
    simp only [forEachPagedAux] at h
    split at h
    · simp only [Option.some.injEq, Prod.mk.injEq] at h
      exact h.1 ▸ hs
    · rename_i items heq
      split at h
      · rename_i r2 hvisit
        obtain ⟨s2, r3⟩ := r2
        simp only [Option.some.injEq, Prod.mk.injEq] at h
        exact h.1 ▸ (visitItems_preserves fn P hfn items s hs).1 _ _ hvisit
      · rename_i s2 hvisit
        have hs2 : P s2 := (visitItems_preserves fn P hfn items s hs).2 _ hvisit
        split at h
        · simp only [Option.some.injEq, Prod.mk.injEq] at h
          exact h.1 ▸ hs2
        · exact ih s2 (page + 1) s1 r hs2 h

/-- Inserting into the Go ID map keeps the key list duplicate-free. -/
lemma mapInsert_nodup (m : List String) (k : String) (h : m.Nodup) :
    (mapInsert m k).Nodup := by
  unfold mapInsert
  split
  · exact h
  · rename_i hc
    have hk : k ∉ m := fun hm => hc (List.elem_iff.mpr hm)
    simp [List.nodup_append, h, hk]

/-- The ID list collected by `verifyNewCategoriesMatchExisting` is
duplicate-free, so its length is the number of distinct existing IDs. -/
lemma collectUserCategoryIDs_nodup (store : Store) (fuel : Nat) (userID teamID : String)
    (m : List String) (r : Option GoErr)
    (h : collectUserCategoryIDs store fuel userID teamID = some (m, r)) : m.Nodup := by
  exact forEachPagedAux_preserves _ perPage _ List.Nodup
    (fun s a hs => mapInsert_nodup s a.id hs) fuel [] 0 m r List.nodup_nil h

/-- Once the ID collection of the scope is fixed, the validation is the
length check followed by the first-missing-ID scan. -/
lemma verify_eq_of_collect (store : Store) (fuel : Nat) (userID teamID : String)
    (newCategoryOrder m : List String)
    (hcollect : collectUserCategoryIDs store fuel userID teamID = some (m, none)) :
    verifyNewCategoriesMatchExisting store fuel userID teamID newCategoryOrder =
      if newCategoryOrder.length ≠ m.length then
        some (some (.wrap
          (lengthMismatchContext newCategoryOrder.length m.length userID teamID)
          .categoriesLengthMismatch))
      else
        match newCategoryOrder.find? (fun newCategoryID => !m.contains newCategoryID) with
        | some badID =>
          some (some (.wrap (idNotFoundContext badID userID teamID) .categoryNotFound))
        | none => some none := by
  unfold verifyNewCategoriesMatchExisting
  rw [hcollect]

/-! ### C2 -/

/-- C2: a reorder whose proposed length differs from the number of
distinct existing category IDs fails with the length-mismatch wrap
carrying both lengths and the scope, and the empty effect trace shows the
store reorder is never invoked and nothing is broadcast. -/
theorem reorderCategories_length_mismatch_rejected
    (store : Store) (fuel : Nat) (userID teamID : String)
    (newCategoryOrder m : List String)
    (hcollect : collectUserCategoryIDs store fuel userID teamID = some (m, none))
    (hlen : newCategoryOrder.length ≠ m.length) :
    m.Nodup ∧
      reorderCategories store fuel userID teamID newCategoryOrder =
        some (.error (.wrap
          (lengthMismatchContext newCategoryOrder.length m.length userID teamID)
          .categoriesLengthMismatch), []) := by
  refine ⟨collectUserCategoryIDs_nodup store fuel userID teamID m none hcollect, ?_⟩
  simp [reorderCategories, verifyNewCategoriesMatchExisting, hcollect, hlen]

/-- Witness for C2: proposing the single ID "c1" against the stored pair
of categories is rejected with the wrap carrying lengths 1 and 2 and the
scope, with no effects. -/
theorem reorderCategories_length_mismatch_rejected_witness :
    List.Nodup ["c1", "c2"] ∧
      reorderCategories wStore 1 "u" "t" ["c1"] =
        some (.error (.wrap (lengthMismatchContext 1 2 "u" "t")
          .categoriesLengthMismatch), []) :=
  reorderCategories_length_mismatch_rejected wStore 1 "u" "t" ["c1"] ["c1", "c2"]
    rfl (by decide)

/-! ### C6 -/

/-- C6: a reorder proposing a permutation of the existing IDs passes
validation, and the value returned (and the one broadcast) is exactly the
order the store reports as committed, not the caller input. -/
theorem reorderCategories_permutation_commits_store_order
    (store : Store) (fuel : Nat) (userID teamID : String)
    (newCategoryOrder m committed : List String)
    (hcollect : collectUserCategoryIDs store fuel userID teamID = some (m, none))
    (hperm : newCategoryOrder.Perm m)
    (hstore : store.reorderCategories userID teamID newCategoryOrder = .ok committed) :
    reorderCategories store fuel userID teamID newCategoryOrder =
      some (.ok committed,
        [.storeReorderCategories userID teamID newCategoryOrder,
         .broadcastCategoryReorder teamID userID committed]) := by
  have hlen : newCategoryOrder.length = m.length := hperm.length_eq
  have hfind : newCategoryOrder.find? (fun newCategoryID => !m.contains newCategoryID) = none := by
    rw [List.find?_eq_none]
    intro x hx
    have hc : m.contains x = true := List.elem_iff.mpr (hperm.mem_iff.mp hx)
    simp only [hc, Bool.not_true, Bool.false_eq_true, not_false_eq_true]
  have hver : verifyNewCategoriesMatchExisting store fuel userID teamID newCategoryOrder =
      some none := by
    rw [verify_eq_of_collect store fuel userID teamID newCategoryOrder m hcollect,
      if_neg (not_not.mpr hlen), hfind]
  simp [reorderCategories, hver, hstore]

/-- Witness for C6: proposing ["c2", "c1"] against the stored pair
succeeds and returns the store-committed order ["c1", "c2"], which is
also what is broadcast. -/
theorem reorderCategories_permutation_commits_store_order_witness :
    reorderCategories wStore 1 "u" "t" ["c2", "c1"] =
      some (.ok ["c1", "c2"],
        [.storeReorderCategories "u" "t" ["c2", "c1"],
         .broadcastCategoryReorder "t" "u" ["c1", "c2"]]) :=
  reorderCategories_permutation_commits_store_order wStore 1 "u" "t"
    ["c2", "c1"] ["c1", "c2"] ["c1", "c2"] rfl (by decide) rfl

/-! ### C8 -/

/-- C8: the validation accepts a proposed order exactly when its length
equals the number of distinct existing IDs and every proposed ID belongs
to the existing set — so an order with duplicates passes whenever its
length coincidentally matches, and any accepted order is handed to the
store verbatim as the first effect of the reorder call. -/
theorem verifyNewCategoriesMatchExisting_accepts_iff
    (store : Store) (fuel : Nat) (userID teamID : String)
    (newCategoryOrder m : List String)
    (hcollect : collectUserCategoryIDs store fuel userID teamID = some (m, none)) :
    m.Nodup ∧
    (verifyNewCategoriesMatchExisting store fuel userID teamID newCategoryOrder = some none ↔
      newCategoryOrder.length = m.length ∧ ∀ id ∈ newCategoryOrder, id ∈ m) ∧
    (verifyNewCategoriesMatchExisting store fuel userID teamID newCategoryOrder = some none →
      ∃ r rest, reorderCategories store fuel userID teamID newCategoryOrder =
        some (r, .storeReorderCategories userID teamID newCategoryOrder :: rest)) := by
  refine ⟨collectUserCategoryIDs_nodup store fuel userID teamID m none hcollect, ?_, ?_⟩
  · rw [verify_eq_of_collect store fuel userID teamID newCategoryOrder m hcollect]
    by_cases hlen : newCategoryOrder.length = m.length
    · rw [if_neg (not_not.mpr hlen)]
      rcases hfind : newCategoryOrder.find?
          (fun newCategoryID => !m.contains newCategoryID) with _ | badID
      · simp only [Option.some.injEq, true_iff]
        refine ⟨hlen, fun id hid => ?_⟩
        have hc := List.find?_eq_none.mp hfind id hid
        simp only [Bool.not_eq_true', Bool.not_eq_false] at hc
        exact List.elem_iff.mp hc
      · simp only [Option.some.injEq, reduceCtorEq, false_iff, not_and]
        intro _ hall
        have hbad := List.find?_some hfind
        have hmem := List.mem_of_find?_eq_some hfind
        simp only [Bool.not_eq_true'] at hbad
        have hc : m.contains badID = true := List.elem_iff.mpr (hall badID hmem)
        rw [hc] at hbad
        exact absurd hbad (by decide)
    · rw [if_pos (fun h => hlen h)]
      simp only [Option.some.injEq, reduceCtorEq, false_iff, not_and]
      intro h
      exact absurd h hlen
  · intro hacc
    rcases hstore : store.reorderCategories userID teamID newCategoryOrder with e | newOrder
    · exact ⟨.error e, [], by simp [reorderCategories, hacc, hstore]⟩
    · exact ⟨.ok newOrder, [.broadcastCategoryReorder teamID userID newOrder],
        by simp [reorderCategories, hacc, hstore]⟩

/-- Witness for C8: against the stored set of two categories, the
duplicated proposal ["c1", "c1"] has matching length 2 and only known
IDs, so it is accepted and handed to the store unchanged. -/
theorem verifyNewCategoriesMatchExisting_accepts_iff_witness :
    verifyNewCategoriesMatchExisting wStore 1 "u" "t" ["c1", "c1"] = some none ∧
    ∃ r rest, reorderCategories wStore 1 "u" "t" ["c1", "c1"] =
      some (r, .storeReorderCategories "u" "t" ["c1", "c1"] :: rest) := by
  have h := verifyNewCategoriesMatchExisting_accepts_iff wStore 1 "u" "t"
    ["c1", "c1"] ["c1", "c2"] rfl
  have hacc := h.2.1.mpr (by decide)
  exact ⟨hacc, h.2.2 hacc⟩

/-! ### C3 -/

/-- The only effect the board migration ever produces is the bulk
board-reassignment call; in particular it never calls the store delete. -/
lemma moveBoardsToDefaultCategory_effects (store : Store) (fuel : Nat)
    (userID teamID sourceCategoryID : String) (r : Option GoErr) (effects : List Effect)
    (h : moveBoardsToDefaultCategory store fuel userID teamID sourceCategoryID =
      some (r, effects)) :
    ∀ eff ∈ effects, ∃ tid uid did bids, eff = .addUpdateUserCategoryBoard tid uid did bids := by
  unfold moveBoardsToDefaultCategory at h
  split at h
  · cases h
  · simp only [Option.some.injEq, Prod.mk.injEq] at h
    intro eff heff
    rw [← h.2] at heff
    cases heff
  · split at h
    · simp only [Option.some.injEq, Prod.mk.injEq] at h
      intro eff heff
      rw [← h.2] at heff
      cases heff
    · rename_i scb
      split at h
      · simp only [Option.some.injEq, Prod.mk.injEq] at h
        intro eff heff
        rw [← h.2] at heff
        cases heff
      · simp only [] at h
        split at h <;>
          simp only [Option.some.injEq, Prod.mk.injEq] at h <;>
          intro eff heff <;>
          rw [← h.2] at heff <;>
          simp only [List.mem_singleton] at heff <;>
          exact ⟨teamID, userID, _, _, heff⟩

/-- C3: with the guards passed (existing, active, owned, right team, not
system), the board migration decides the fate of the delete: a migration
error is returned as is and the store delete is never called (its effect
is absent from the trace); a successful migration is followed by the
store delete, whose effect sits right after the migration effects in the
trace.  The two scan failure modes are distinct errors: an exhausted scan
without the source category yields the category-not-found sentinel, and
one with the source but no default-named category yields the wrapped
no-default-category sentinel. -/
theorem deleteCategory_migration_precedes_delete
    (store : Store) (fuel : Nat) (categoryID userID teamID : String) (existing : Category)
    (hget : store.getCategory categoryID = .ok existing)
    (hdel : existing.deleteAt = 0)
    (huser : existing.userID = userID)
    (hteam : existing.teamID = teamID)
    (hsys : existing.type_ ≠ categoryTypeSystem) :
    (∀ e effects,
      moveBoardsToDefaultCategory store fuel userID teamID categoryID =
          some (some e, effects) →
      deleteCategory store fuel categoryID userID teamID = some (.error e, effects) ∧
        Effect.storeDeleteCategory categoryID userID teamID ∉ effects) ∧
    (∀ effects,
      moveBoardsToDefaultCategory store fuel userID teamID categoryID =
          some (none, effects) →
      ∃ res, deleteCategory store fuel categoryID userID teamID = some res ∧
        ∃ rest, res.2 = effects ++ Effect.storeDeleteCategory categoryID userID teamID :: rest) ∧
    (∀ srcOpt defaultCategoryID,
      ForEachUserCategoryBoard store userID teamID (moveScanStep categoryID)
          (none, "") fuel = some ((srcOpt, defaultCategoryID), none) →
      (srcOpt = none →
        moveBoardsToDefaultCategory store fuel userID teamID categoryID =
          some (some .categoryNotFound, [])) ∧
      (srcOpt ≠ none → defaultCategoryID = "" →
        moveBoardsToDefaultCategory store fuel userID teamID categoryID =
          some (some (.wrap "moveBoardsToDefaultCategory" .noDefaultCategoryFound), []))) := by
  refine ⟨fun e effects hmove => ?_, fun effects hmove => ?_, fun srcOpt defId hscan => ?_⟩
  · constructor
    · simp [deleteCategory, hget, hdel, huser, hteam, hsys, hmove]
    · intro hmem
      rcases moveBoardsToDefaultCategory_effects store fuel userID teamID categoryID
        (some e) effects hmove _ hmem with ⟨_, _, _, _, habs⟩
      cases habs
  · rcases hstore : store.deleteCategory categoryID userID teamID with _ | e
    · refine ⟨(.ok existing, effects ++ [.storeDeleteCategory categoryID userID teamID] ++
        [.broadcastCategoryChange existing]), ?_, [.broadcastCategoryChange existing], by simp⟩
      simp [deleteCategory, hget, hdel, huser, hteam, hsys, hmove, hstore]
    · refine ⟨(.error e, effects ++ [.storeDeleteCategory categoryID userID teamID]), ?_, [], by simp⟩
      simp [deleteCategory, hget, hdel, huser, hteam, hsys, hmove, hstore]
  · constructor
    · intro hsrc
      subst hsrc
      simp [moveBoardsToDefaultCategory, hscan]
    · intro hsrc hdefault
      subst hdefault
      rcases srcOpt with _ | scb
      · exact absurd rfl hsrc
      · simp [moveBoardsToDefaultCategory, hscan]

/-- A store whose board-aware category page holds only the default
system category, so a migration away from "c2" cannot find its source. -/
def wStoreNoSource : Store :=
  { wStore with getUserCategoryBoards := fun _ _ page _ =>
      if page = 0 then .ok [⟨wSystemCat, []⟩] else .ok [] }

/-- Witness for C3: deleting "c2" when the scan cannot find it fails with
the category-not-found sentinel from the migration, and the empty effect
trace contains no store delete. -/
theorem deleteCategory_migration_precedes_delete_witness :
    deleteCategory wStoreNoSource 1 "c2" "u" "t" = some (.error .categoryNotFound, []) ∧
      Effect.storeDeleteCategory "c2" "u" "t" ∉ ([] : List Effect) :=
  (deleteCategory_migration_precedes_delete wStoreNoSource 1 "c2" "u" "t" wCustomCat
    rfl rfl rfl rfl (by decide)).1 .categoryNotFound [] rfl

/-! ### C9: the pagination contract -/

/-- Consing onto a list keeps its last element. -/
lemma getLast?_cons_of_getLast? (a : β) (l : List β) (x : β)
    (h : l.getLast? = some x) : (a :: l).getLast? = some x := by
  rcases l with _ | ⟨b, tl⟩
  · simp at h
  · rw [List.getLast?_cons_cons]
    exact h

/-- Every page request of the enumeration asks for exactly `per` items. -/
lemma forEachPagedAux_per (getPage : Nat → Nat → Except GoErr (List α)) (per : Nat)
    (fn : σ → α → σ × Bool × Option GoErr) :
    ∀ (fuel : Nat) (s : σ) (page : Nat),
      ∀ x ∈ (forEachPagedAux getPage per fn s page fuel).1, x.2.1 = per := by
  intro fuel
  induction fuel with
  | zero => intro s page x hx; simp [forEachPagedAux] at hx
  | succ fuel ih =>
    intro s page x hx
    simp only [forEachPagedAux] at hx
    split at hx
    · simp only [List.mem_singleton] at hx
      subst hx
      rfl
    · split at hx
      · simp only [List.mem_singleton] at hx
        subst hx
        rfl
      · split at hx
        · simp only [List.mem_singleton] at hx
          subst hx
          rfl
        · rcases List.mem_cons.mp hx with h | h
          · subst h
            rfl
          · exact ih _ (page + 1) x h

/-- The pages requested by the enumeration are consecutive, starting at
the given page number. -/
lemma forEachPagedAux_pages (getPage : Nat → Nat → Except GoErr (List α)) (per : Nat)
    (fn : σ → α → σ × Bool × Option GoErr) :
    ∀ (fuel : Nat) (s : σ) (page : Nat),
      ((forEachPagedAux getPage per fn s page fuel).1).map (fun x => x.1) =
        List.range' page (forEachPagedAux getPage per fn s page fuel).1.length := by
  intro fuel
  induction fuel with
  | zero => intro s page; simp [forEachPagedAux]
  | succ fuel ih =>
    intro s page
    simp only [forEachPagedAux]
    split
    · simp [List.range'_one]
    · split
      · simp [List.range'_one]
      · split
        · simp [List.range'_one]
        · simp only [List.map_cons, List.length_cons, List.range'_succ, List.cons.injEq]
          exact ⟨trivial, ih _ (page + 1)⟩

/-- A store error on a requested page makes that page the last request
and aborts the enumeration with that error, returned as is. -/
lemma forEachPagedAux_error_abort (getPage : Nat → Nat → Except GoErr (List α)) (per : Nat)
    (fn : σ → α → σ × Bool × Option GoErr) :
    ∀ (fuel : Nat) (s : σ) (page p : Nat) (sp : σ) (e : GoErr),
      (p, per, sp) ∈ (forEachPagedAux getPage per fn s page fuel).1 →
      getPage p per = .error e →
      (forEachPagedAux getPage per fn s page fuel).1.getLast? = some (p, per, sp) ∧
        (forEachPagedAux getPage per fn s page fuel).2 = some (sp, some e) := by
  intro fuel
  induction fuel with
  | zero => intro s page p sp e hmem _; simp [forEachPagedAux] at hmem
  | succ fuel ih =>
    intro s page p sp e hmem herr
    rcases hpage : getPage page per with e0 | items <;>
      simp only [forEachPagedAux, hpage] at hmem ⊢
    · simp only [List.mem_singleton, Prod.mk.injEq, true_and] at hmem
      obtain ⟨rfl, -, rfl⟩ := hmem
      rw [hpage] at herr
      simp only [Except.error.injEq] at herr
      subst herr
      simp
    · rcases hvisit : visitItems fn s items with r2 | s2 <;>
        simp only [hvisit] at hmem ⊢
      · simp only [List.mem_singleton, Prod.mk.injEq, true_and] at hmem
        obtain ⟨rfl, -, rfl⟩ := hmem
        rw [hpage] at herr
        cases herr
      · by_cases hshort : items.length < per <;>
          [rw [if_pos hshort] at hmem ⊢; rw [if_neg hshort] at hmem ⊢]
        · simp only [List.mem_singleton, Prod.mk.injEq, true_and] at hmem
          obtain ⟨rfl, -, rfl⟩ := hmem
          rw [hpage] at herr
          cases herr
        · rcases List.mem_cons.mp hmem with hhead | htail
          · simp only [Prod.mk.injEq, true_and] at hhead
            obtain ⟨rfl, -, rfl⟩ := hhead
            rw [hpage] at herr
            cases herr
          · have hres := ih s2 (page + 1) p sp e htail herr
            exact ⟨getLast?_cons_of_getLast? _ _ _ hres.1, hres.2⟩

/-- When the visitor signals done (or fails) on some requested page, that
page is the last request and the enumeration returns the visitor result
immediately. -/
lemma forEachPagedAux_visitor_stop (getPage : Nat → Nat → Except GoErr (List α)) (per : Nat)
    (fn : σ → α → σ × Bool × Option GoErr) :
    ∀ (fuel : Nat) (s : σ) (page p : Nat) (sp : σ) (l : List α) (s2 : σ) (r2 : Option GoErr),
      (p, per, sp) ∈ (forEachPagedAux getPage per fn s page fuel).1 →
      getPage p per = .ok l →
      visitItems fn sp l = .inl (s2, r2) →
      (forEachPagedAux getPage per fn s page fuel).1.getLast? = some (p, per, sp) ∧
        (forEachPagedAux getPage per fn s page fuel).2 = some (s2, r2) := by
  intro fuel
  induction fuel with
  | zero => intro s page p sp l s2 r2 hmem _ _; simp [forEachPagedAux] at hmem
  | succ fuel ih =>
    intro s page p sp l s2 r2 hmem hok hvis
    rcases hpage : getPage page per with e0 | items <;>
      simp only [forEachPagedAux, hpage] at hmem ⊢
    · simp only [List.mem_singleton, Prod.mk.injEq, true_and] at hmem
      obtain ⟨rfl, -, rfl⟩ := hmem
      rw [hpage] at hok
      cases hok
    · rcases hvisit : visitItems fn s items with r0 | s3 <;>
        simp only [hvisit] at hmem ⊢
      · simp only [List.mem_singleton, Prod.mk.injEq, true_and] at hmem
        obtain ⟨rfl, -, rfl⟩ := hmem
        rw [hpage] at hok
        simp only [Except.ok.injEq] at hok
        subst hok
        rw [hvis] at hvisit
        simp only [Sum.inl.injEq] at hvisit
        subst hvisit
        simp
      · by_cases hshort : items.length < per <;>
          [rw [if_pos hshort] at hmem ⊢; rw [if_neg hshort] at hmem ⊢]
        · simp only [List.mem_singleton, Prod.mk.injEq, true_and] at hmem
          obtain ⟨rfl, -, rfl⟩ := hmem
          rw [hpage] at hok
          simp only [Except.ok.injEq] at hok
          subst hok
          rw [hvis] at hvisit
          cases hvisit
        · rcases List.mem_cons.mp hmem with hhead | htail
          · simp only [Prod.mk.injEq, true_and] at hhead
            obtain ⟨rfl, -, rfl⟩ := hhead
            rw [hpage] at hok
            simp only [Except.ok.injEq] at hok
            subst hok
            rw [hvis] at hvisit
            cases hvisit
          · have hres := ih s3 (page + 1) p sp l s2 r2 htail hok hvis
            exact ⟨getLast?_cons_of_getLast? _ _ _ hres.1, hres.2⟩

/-- A page returning fewer than `per` items (with the visitor consuming
it without stopping) is the last request, and the enumeration ends
successfully with the state after that page. -/
lemma forEachPagedAux_short_page_stop (getPage : Nat → Nat → Except GoErr (List α)) (per : Nat)
    (fn : σ → α → σ × Bool × Option GoErr) :
    ∀ (fuel : Nat) (s : σ) (page p : Nat) (sp : σ) (l : List α) (s2 : σ),
      (p, per, sp) ∈ (forEachPagedAux getPage per fn s page fuel).1 →
      getPage p per = .ok l →
      visitItems fn sp l = .inr s2 →
      l.length < per →
      (forEachPagedAux getPage per fn s page fuel).1.getLast? = some (p, per, sp) ∧
        (forEachPagedAux getPage per fn s page fuel).2 = some (s2, none) := by
  intro fuel
  induction fuel with
  | zero => intro s page p sp l s2 hmem _ _ _; simp [forEachPagedAux] at hmem
  | succ fuel ih =>
    intro s page p sp l s2 hmem hok hvis hlen
    rcases hpage : getPage page per with e0 | items <;>
      simp only [forEachPagedAux, hpage] at hmem ⊢
    · simp only [List.mem_singleton, Prod.mk.injEq, true_and] at hmem
      obtain ⟨rfl, -, rfl⟩ := hmem
      rw [hpage] at hok
      cases hok
    · rcases hvisit : visitItems fn s items with r0 | s3 <;>
        simp only [hvisit] at hmem ⊢
      · simp only [List.mem_singleton, Prod.mk.injEq, true_and] at hmem
        obtain ⟨rfl, -, rfl⟩ := hmem
        rw [hpage] at hok
        simp only [Except.ok.injEq] at hok
        subst hok
        rw [hvis] at hvisit
        cases hvisit
      · by_cases hshort : items.length < per <;>
          [rw [if_pos hshort] at hmem ⊢; rw [if_neg hshort] at hmem ⊢]
        · simp only [List.mem_singleton, Prod.mk.injEq, true_and] at hmem
          obtain ⟨rfl, -, rfl⟩ := hmem
          rw [hpage] at hok
          simp only [Except.ok.injEq] at hok
          subst hok
          rw [hvis] at hvisit
          simp only [Sum.inr.injEq] at hvisit
          subst hvisit
          simp
        · rcases List.mem_cons.mp hmem with hhead | htail
          · simp only [Prod.mk.injEq, true_and] at hhead
            obtain ⟨rfl, -, rfl⟩ := hhead
            rw [hpage] at hok
            simp only [Except.ok.injEq] at hok
            subst hok
            exact absurd hlen hshort
          · have hres := ih s3 (page + 1) p sp l s2 htail hok hvis hlen
            exact ⟨getLast?_cons_of_getLast? _ _ _ hres.1, hres.2⟩

/-- C9: the enumeration contract of `ForEachUserCategory`: every store
request asks for exactly 50 items; the requested page numbers are
consecutive starting at 0; a store error on a page makes it the last
request and is returned to the caller at once; a page on which the
visitor stops early (done signal or visitor error) is the last request
and its result is returned; and a page with fewer than 50 items that the
visitor consumes fully is the last request, ending the enumeration
successfully. -/
theorem ForEachUserCategory_pagination_contract
    (store : Store) (userID teamID : String) (fn : σ → Category → σ × Bool × Option GoErr)
    (s : σ) (fuel : Nat) :
    (∀ x ∈ (ForEachUserCategoryRun store userID teamID fn s fuel).1, x.2.1 = 50) ∧
    ((ForEachUserCategoryRun store userID teamID fn s fuel).1.map (fun x => x.1) =
      List.range' 0 (ForEachUserCategoryRun store userID teamID fn s fuel).1.length) ∧
    (∀ p sp e,
      (p, 50, sp) ∈ (ForEachUserCategoryRun store userID teamID fn s fuel).1 →
      store.getUserCategories userID teamID p 50 = .error e →
      (ForEachUserCategoryRun store userID teamID fn s fuel).1.getLast? = some (p, 50, sp) ∧
        (ForEachUserCategoryRun store userID teamID fn s fuel).2 = some (sp, some e)) ∧
    (∀ p sp items s2 r2,
      (p, 50, sp) ∈ (ForEachUserCategoryRun store userID teamID fn s fuel).1 →
      store.getUserCategories userID teamID p 50 = .ok items →
      visitItems fn sp items = .inl (s2, r2) →
      (ForEachUserCategoryRun store userID teamID fn s fuel).1.getLast? = some (p, 50, sp) ∧
        (ForEachUserCategoryRun store userID teamID fn s fuel).2 = some (s2, r2)) ∧
    (∀ p sp items s2,
      (p, 50, sp) ∈ (ForEachUserCategoryRun store userID teamID fn s fuel).1 →
      store.getUserCategories userID teamID p 50 = .ok items →
      visitItems fn sp items = .inr s2 → items.length < 50 →
      (ForEachUserCategoryRun store userID teamID fn s fuel).1.getLast? = some (p, 50, sp) ∧
        (ForEachUserCategoryRun store userID teamID fn s fuel).2 = some (s2, none)) := by
  refine ⟨?_, ?_, ?_, ?_, ?_⟩
  · exact fun x hx =>
      forEachPagedAux_per (store.getUserCategories userID teamID) perPage fn fuel s 0 x hx
  · exact forEachPagedAux_pages (store.getUserCategories userID teamID) perPage fn fuel s 0
  · exact fun p sp e hmem herr =>
      forEachPagedAux_error_abort (store.getUserCategories userID teamID) perPage fn
        fuel s 0 p sp e hmem herr
  · exact fun p sp items s2 r2 hmem hok hvis =>
      forEachPagedAux_visitor_stop (store.getUserCategories userID teamID) perPage fn
        fuel s 0 p sp items s2 r2 hmem hok hvis
  · exact fun p sp items s2 hmem hok hvis hlen =>
      forEachPagedAux_short_page_stop (store.getUserCategories userID teamID) perPage fn
        fuel s 0 p sp items s2 hmem hok hvis hlen

/-- A visitor that records nothing and never stops. -/
def wNoopVisitor : Unit → Category → Unit × Bool × Option GoErr :=
  fun s _ => (s, false, none)

/-- A store whose category pages always fail. -/
def wStoreErrPage : Store :=
  { wStore with getUserCategories := fun _ _ _ _ => .error (.storeFailure 9) }

/-- Witness for C9: when page 0 fails, that single request is the whole
trace and the enumeration returns the store error immediately. -/
theorem ForEachUserCategory_pagination_contract_witness :
    (ForEachUserCategoryRun wStoreErrPage "u" "t" wNoopVisitor () 3).1.getLast? =
        some (0, 50, ()) ∧
      (ForEachUserCategoryRun wStoreErrPage "u" "t" wNoopVisitor () 3).2 =
        some ((), some (.storeFailure 9)) :=
  (ForEachUserCategory_pagination_contract wStoreErrPage "u" "t" wNoopVisitor () 3).2.2.1
    0 () (.storeFailure 9) (by decide) rfl

end Boards
